import Mathlib

/-!
# Verification of the voxane spectral-analysis pipeline

Shallow embedding of the repository's two source files, `src/sample.rs`
(`SampleBuffer`) and `src/analyzer.rs` (`Analyzer`), together with the
collaborating components the analyzer uses.

Conventions of the embedding:
* The Rust scalar types `f32` (`Sample`, `Frequency`, `SignalStrength`) are
  idealised as `ℚ`, keeping every definition executable and every equality
  decidable.  The claims under verification are structural (lengths, index
  ranges, elementwise descriptions of the computation), so they are insensitive
  to the difference between exact rationals and IEEE floats.
* The forward FFT is an external crate (`rustfft`), an injected black-box
  capability per the specification; the `Analyzer` therefore carries the
  transform as a function parameter `fft : List Cplx → List Cplx` together with
  the plan length, exactly as the Rust struct holds `Arc<dyn FFT<Sample>>`.
* `Buckets`, `Window` and the `Error` enum are code of this repository that is
  not among the given source files; they are modelled from the specification
  (see the doc comments on those definitions).
-/

/-- Complex number over ℚ, the embedding of `rustfft::num_complex::Complex<f32>`. -/
structure Cplx where
  re : ℚ
  im : ℚ
deriving DecidableEq, Repr

/-- Embedding of `Complex::from(x)`: real part `x`, imaginary part zero. -/
def Cplx.ofRat (x : ℚ) : Cplx := ⟨x, 0⟩

/-- Embedding of `Complex::norm_sqr`: squared magnitude `re² + im²`. -/
def Cplx.normSq (z : Cplx) : ℚ := z.re * z.re + z.im * z.im

/-- Modelled from the spec: the crate-level `Error` enum is not among the given
source files.  §7 lists the three error kinds: `InvalidSamplingRate`,
`InvalidRange`, `NotEnoughSamples`. -/
inductive Error where
  | InvalidSamplingRate
  | InvalidRange
  | NotEnoughSamples
deriving DecidableEq, Repr

/-- Modelled from the spec: `window.rs` is not among the given source files.
§3/§4.1: a closed enumeration of window-function variants, rectangular being
the trivial case. -/
inductive Window where
  | Rectangle
deriving DecidableEq, Repr

/-- Modelled from the spec, §4.1: `generate(length)` produces exactly `length`
coefficients; for the rectangular variant every coefficient is `1.0`. -/
def Window.generate : Window → Nat → List ℚ
  | .Rectangle, len => List.replicate len 1

/-- Modelled from the spec, §3: `Buckets` is an ordered sequence of
`(start_frequency, end_frequency)` pairs.  `buckets.rs` is not among the given
source files. -/
structure Buckets where
  bands : List (ℚ × ℚ)
deriving DecidableEq, Repr

/-- Embedding of `Buckets::len`: the number of bands. -/
def Buckets.len (b : Buckets) : Nat := b.bands.length

/-- Modelled from the spec, §4.2: construction fails with `InvalidRange` when
`bucket_count == 0`, `lower_cutoff >= upper_cutoff`, or either cutoff is
negative; otherwise band `i` is `[lower + i*width, lower + (i+1)*width)` with
`width = (upper - lower) / bucket_count`. -/
def Buckets.new (lower upper : ℚ) (count : Nat) : Except Error Buckets :=
  if count = 0 ∨ lower ≥ upper ∨ lower < 0 ∨ upper < 0 then
    .error .InvalidRange
  else
    let width := (upper - lower) / (count : ℚ)
    .ok ⟨(List.range count).map fun i =>
      (lower + (i : ℚ) * width, lower + ((i : ℚ) + 1) * width)⟩

/-- Modelled from the spec, §4.2: `locate(frequency)` returns the index of the
unique band whose half-open interval (start inclusive, end exclusive) contains
the frequency, `none` if no band does. -/
def Buckets.locate (b : Buckets) (f : ℚ) : Option Nat :=
  b.bands.findIdx? fun p => decide (p.1 ≤ f ∧ f < p.2)

/-- Modelled from the spec, §4.2: `lower_cutoff()` returns the configured lower
bound, `none` only for an empty bucket list. -/
def Buckets.lower_cutoff (b : Buckets) : Option ℚ := b.bands.head?.map Prod.fst

/-- Modelled from the spec, §4.2: `upper_cutoff()` returns the configured upper
bound, `none` only for an empty bucket list. -/
def Buckets.upper_cutoff (b : Buckets) : Option ℚ := b.bands.getLast?.map Prod.snd

/-- Embedding of `SampleBuffer` (src/sample.rs): a `VecDeque<Sample>` modelled
as a list, front at the head. -/
structure SampleBuffer where
  buf : List ℚ
deriving DecidableEq, Repr

/-- Embedding of `SampleBuffer::new(size)` (src/sample.rs): a buffer of `size` zeros. -/
def SampleBuffer.new (size : Nat) : SampleBuffer := ⟨List.replicate size 0⟩

/-- One iteration of the loop in `SampleBuffer::push`: `pop_front` (drop the
head if any) then `push_back` (append). -/
def SampleBuffer.pushOne (b : List ℚ) (s : ℚ) : List ℚ := b.drop 1 ++ [s]

/-- Embedding of `SampleBuffer::push` (src/sample.rs): early-return when the buffer is
empty, otherwise for each incoming sample in order pop the front and push the
sample at the back. -/
def SampleBuffer.push (sb : SampleBuffer) (new : List ℚ) : SampleBuffer :=
  if sb.buf.length = 0 then sb
  else ⟨new.foldl SampleBuffer.pushOne sb.buf⟩

/-- Embedding of `Analyzer` (src/analyzer.rs).  The Rust struct holds
`fft: Arc<dyn FFT<Sample>>`; `fft_buffer_len()` returns `self.fft.len()`, the
plan length, so the embedding carries the black-box transform function and the
plan length it was built for. -/
structure Analyzer where
  fft : List Cplx → List Cplx
  fftLen : Nat
  fft_bin_size : ℚ
  window : Window
  buckets : Buckets

/-- Embedding of `Analyzer::fft_buffer_len` (src/analyzer.rs): the plan length. -/
def Analyzer.fft_buffer_len (a : Analyzer) : Nat := a.fftLen

/-- Embedding of `Analyzer::new` (src/analyzer.rs lines 47-72): reject a non-positive
sampling rate, clamp the upper cutoff to the Nyquist frequency, build the
buckets, plan the FFT, compute the bin size.  The transform produced by the
planner for the requested length is passed in as `fft`, reflecting the injected
black-box transform capability. -/
def Analyzer.new (fft : List Cplx → List Cplx) (fft_buffer_len bucket_len : Nat)
    (window : Window) (lower_cutoff upper_cutoff sampling_rate : ℚ) :
    Except Error Analyzer :=
  if ¬ (sampling_rate > 0) then .error .InvalidSamplingRate
  else
    let upper_cutoff := min upper_cutoff (sampling_rate / 2)
    match Buckets.new lower_cutoff upper_cutoff bucket_len with
    | .error e => .error e
    | .ok buckets =>
      .ok { fft := fft
            fftLen := fft_buffer_len
            fft_bin_size := sampling_rate / (fft_buffer_len : ℚ)
            window := window
            buckets := buckets }

/-- Embedding of `Analyzer::calculate_spectrum` (src/analyzer.rs lines 101-130): error out
when fewer samples than the FFT buffer length are supplied; otherwise take the
last `fft_buffer_len` samples, multiply elementwise with the window
coefficients to form the complex FFT input, run the transform, and map each
output value to its squared magnitude. -/
def Analyzer.calculate_spectrum (a : Analyzer) (samples : List ℚ) :
    Except Error (List ℚ) :=
  if ¬ (samples.length ≥ a.fft_buffer_len) then .error .NotEnoughSamples
  else
    let sample_list := samples.drop (samples.length - a.fft_buffer_len)
    let window_list := a.window.generate a.fft_buffer_len
    let fft_input := List.zipWith (fun s w => Cplx.ofRat (s * w)) sample_list window_list
    let fft_output := a.fft fft_input
    .ok (fft_output.map Cplx.normSq)

/-- The index range `1..=(spectrum.len() / 2)` iterated by
`Analyzer::bucketize_spectrum`. -/
def validFFTIndices (n : Nat) : List Nat := List.range' 1 (n / 2)

/-- Embedding of `assignments.get_mut(band_index)` followed by `*value += v; *count += 1`:
add `v` to the sum and bump the count at `idx`, a no-op when `idx` is out of
range (as `get_mut` returns `None` there). -/
def updateAssign (l : List (ℚ × Nat)) (idx : Nat) (v : ℚ) : List (ℚ × Nat) :=
  match l, idx with
  | [], _ => []
  | x :: xs, 0 => (x.1 + v, x.2 + 1) :: xs
  | x :: xs, n + 1 => x :: updateAssign xs n v

/-- One iteration of the accumulation loop in `Analyzer::bucketize_spectrum`:
locate the band of frequency `fft_bin_size * i` and, if found, fold
`spectrum[i]` into that band's running `(sum, count)`. -/
def assignStep (a : Analyzer) (spectrum : List ℚ) (acc : List (ℚ × Nat))
    (i : Nat) : List (ℚ × Nat) :=
  match a.buckets.locate (a.fft_bin_size * (i : ℚ)) with
  | some band_index => updateAssign acc band_index (spectrum.getD i 0)
  | none => acc

/-- Embedding of `Analyzer::bucketize_spectrum` (src/analyzer.rs lines 132-164): accumulate
`(sum, count)` per band over the indices `1..=len/2`, then map each band to
`sum / count` when `count > 0` and `0.0` otherwise. -/
def Analyzer.bucketize_spectrum (a : Analyzer) (spectrum : List ℚ) : List ℚ :=
  let assignments :=
    (validFFTIndices spectrum.length).foldl (assignStep a spectrum)
      (List.replicate a.buckets.len ((0 : ℚ), (0 : Nat)))
  assignments.map fun vc => if vc.2 > 0 then vc.1 / (vc.2 : ℚ) else 0

/-- The identity transform, used as a concrete stand-in for the black-box FFT
capability in closed instantiations (constructor and error-path behaviour do
not depend on the transform). -/
def idTransform : List Cplx → List Cplx := fun l => l

/-- A concrete analyzer used to instantiate theorems with hypotheses: identity
transform of plan length 2, bin size 50, two bands. -/
def demoAnalyzer : Analyzer :=
  { fft := idTransform, fftLen := 2, fft_bin_size := 50, window := .Rectangle,
    buckets := ⟨[(0, 30), (30, 50)]⟩ }

/-- The complex sequence the analyzer hands to the forward transform, written
index-wise: entry `j` is the sample `transform_length` positions from the end
plus `j`, multiplied by the `j`-th window coefficient, with imaginary part
zero. -/
def dftInput (a : Analyzer) (samples : List ℚ) : List Cplx :=
  List.ofFn fun j : Fin a.fft_buffer_len =>
    Cplx.ofRat (samples.getD (samples.length - a.fft_buffer_len + (j : Nat)) 0 *
      (a.window.generate a.fft_buffer_len).getD (j : Nat) 0)

/-- Whether spectrum index `i`, at frequency `fft_bin_size * i`, falls into
band `b` according to `Buckets::locate`; used to characterise which bins
contribute to each band of `bucketize_spectrum`. -/
def binInBand (a : Analyzer) (b : Nat) (i : Nat) : Bool :=
  decide (a.buckets.locate (a.fft_bin_size * (i : ℚ)) = some b)

/-! ## Lemmas about `SampleBuffer` -/

theorem SampleBuffer.pushOne_length (b : List ℚ) (s : ℚ) (h : b.length ≠ 0) :
    (SampleBuffer.pushOne b s).length = b.length := by
  simp only [SampleBuffer.pushOne, List.length_append, List.length_drop,
    List.length_singleton]
  omega

theorem SampleBuffer.foldl_pushOne_length (new : List ℚ) (b : List ℚ)
    (h : b.length ≠ 0) :
    (new.foldl SampleBuffer.pushOne b).length = b.length := by
  induction new generalizing b with
  | nil => rfl
  | cons s rest ih =>
    simp only [List.foldl_cons]
    rw [ih _ (by rw [SampleBuffer.pushOne_length b s h]; exact h),
      SampleBuffer.pushOne_length b s h]

theorem SampleBuffer.foldl_pushOne_eq (new : List ℚ) (b : List ℚ)
    (h : new.length ≤ b.length) :
    new.foldl SampleBuffer.pushOne b = b.drop new.length ++ new := by
  induction new generalizing b with
  | nil => simp
  | cons s rest ih =>
    simp only [List.foldl_cons, List.length_cons]
    have hlen : rest.length ≤ (SampleBuffer.pushOne b s).length := by
      simp only [SampleBuffer.pushOne, List.length_append, List.length_drop,
        List.length_singleton]
      simp only [List.length_cons] at h
      omega
    rw [ih _ hlen]
    simp only [SampleBuffer.pushOne]
    have hr : rest.length ≤ (b.drop 1).length := by
      simp only [List.length_drop]
      simp only [List.length_cons] at h
      omega
    rw [List.drop_append_of_le_length hr, List.drop_drop]
    simp [List.append_assoc, Nat.add_comm]

/-! ## Claims about `SampleBuffer` -/

/-- C6: `SampleBuffer` always holds exactly `size` samples: `new(size)` yields
`size` zeros, and every `push`, with any slice of new samples, leaves the
length unchanged. -/
theorem sampleBuffer_length_invariant (size : Nat) (sb : SampleBuffer)
    (new : List ℚ) :
    (SampleBuffer.new size).buf = List.replicate size 0 ∧
    (SampleBuffer.new size).buf.length = size ∧
    (sb.push new).buf.length = sb.buf.length := by
  refine ⟨rfl, by simp [SampleBuffer.new], ?_⟩
  unfold SampleBuffer.push
  split
  · rfl
  · exact SampleBuffer.foldl_pushOne_length new sb.buf (by assumption)

/-- C7: `push` is a no-op on a zero-size buffer; otherwise, for `k ≤ size`
incoming samples the buffer ends up holding its previous last `size - k`
samples followed by the pushed ones; concretely `new(4)` then `push([1,2])`
gives `[0,0,1,2]` and a further `push([3,4,5])` gives `[2,3,4,5]`. -/
theorem sampleBuffer_push_behavior (buf new₀ : List ℚ) :
    SampleBuffer.push ⟨[]⟩ new₀ = ⟨[]⟩ ∧
    (∀ new : List ℚ, new.length ≤ buf.length →
      (SampleBuffer.push ⟨buf⟩ new).buf = buf.drop new.length ++ new) ∧
    ((SampleBuffer.new 4).push [1, 2]).buf = [0, 0, 1, 2] ∧
    (((SampleBuffer.new 4).push [1, 2]).push [3, 4, 5]).buf = [2, 3, 4, 5] := by
  refine ⟨rfl, ?_, by decide, by decide⟩
  intro new hle
  unfold SampleBuffer.push
  split
  · rename_i hz
    have h1 : new = [] := List.length_eq_zero.mp (Nat.le_zero.mp (hz ▸ hle))
    have h2 : buf = [] := List.length_eq_zero.mp hz
    subst h1
    subst h2
    rfl
  · exact SampleBuffer.foldl_pushOne_eq new buf hle

/-- Witness for C7: the general push formula instantiated at the concrete
buffer `[0,0,0,0]` and incoming samples `[1,2]`. -/
theorem sampleBuffer_push_behavior_witness :
    (SampleBuffer.push ⟨[(0 : ℚ), 0, 0, 0]⟩ [1, 2]).buf =
      [(0 : ℚ), 0, 0, 0].drop 2 ++ [1, 2] :=
  (sampleBuffer_push_behavior [(0 : ℚ), 0, 0, 0] []).2.1 [1, 2] (by decide)

/-! ## Error behaviour of the analyzer -/

theorem Buckets.new_error_eq (lower upper : ℚ) (count : Nat) (e : Error)
    (h : Buckets.new lower upper count = .error e) : e = .InvalidRange := by
  unfold Buckets.new at h
  split at h
  · exact (Except.error.injEq _ _).mp h |>.symm
  · exact absurd h (by simp)

/-- C3: `calculate_spectrum` fails, and fails with `NotEnoughSamples`, exactly
when the supplied slice has fewer elements than the configured transform
length; the embedding is a pure function, so failure produces no partial
state. -/
theorem calculate_spectrum_notEnoughSamples (a : Analyzer) (samples : List ℚ) :
    (a.calculate_spectrum samples = .error .NotEnoughSamples ↔
      samples.length < a.fft_buffer_len) ∧
    (∀ e, a.calculate_spectrum samples = .error e → e = .NotEnoughSamples) := by
  unfold Analyzer.calculate_spectrum
  by_cases h : samples.length ≥ a.fft_buffer_len
  · rw [if_neg (by simpa using h)]
    constructor
    · simp only [false_iff]
      · constructor
        · intro hc
          exact absurd hc (by simp)
        · omega
    · intro e he
      exact absurd he (by simp)
  · rw [if_pos (by simpa using h)]
    constructor
    · simp only [true_iff]
      omega
    · intro e he
      exact ((Except.error.injEq _ _).mp he).symm

/-- C4: `Analyzer::new` fails with `InvalidSamplingRate` exactly when the
sampling rate is not strictly positive; the check precedes every other
construction step, so it fires for arbitrary (even otherwise invalid) other
arguments. -/
theorem analyzer_new_invalidSamplingRate (fft : List Cplx → List Cplx)
    (n bc : Nat) (w : Window) (lo hi s : ℚ) :
    Analyzer.new fft n bc w lo hi s = .error .InvalidSamplingRate ↔ s ≤ 0 := by
  unfold Analyzer.new
  by_cases hs : s > 0
  · rw [if_neg (by simpa using hs)]
    constructor
    · intro hc
      cases hB : Buckets.new lo (min hi (s / 2)) bc with
      | error e =>
        simp only [hB] at hc
        have he : e = Error.InvalidRange := Buckets.new_error_eq _ _ _ _ hB
        subst he
        exact absurd hc (by simp)
      | ok bk =>
        simp only [hB] at hc
        exact absurd hc (by simp)
    · intro hle
      exact absurd hs (by simpa using hle)
  · rw [if_pos (by simpa using hs)]
    simp only [true_iff]
    exact le_of_not_lt hs

/-- C5: for a strictly positive sampling rate, `Analyzer::new` is exactly
`Buckets::new` applied to the upper cutoff clamped to `min(upper_cutoff,
sampling_rate / 2)`, with the result wrapped into the analyzer: cutoffs above
the Nyquist frequency are silently clamped, and construction fails only if
bucket construction with the clamped value fails. -/
theorem analyzer_new_clamps_upper_cutoff (fft : List Cplx → List Cplx)
    (n bc : Nat) (w : Window) (lo hi s : ℚ) (hs : s > 0) :
    Analyzer.new fft n bc w lo hi s =
      (Buckets.new lo (min hi (s / 2)) bc).map fun bk =>
        { fft := fft, fftLen := n, fft_bin_size := s / (n : ℚ), window := w,
          buckets := bk } := by
  unfold Analyzer.new
  rw [if_neg (by simpa using hs)]
  cases hB : Buckets.new lo (min hi (s / 2)) bc with
  | error e => simp [Except.map, hB]
  | ok bk => simp [Except.map, hB]

/-- Witness for C5: constructing with `upper_cutoff = 30000` above the Nyquist
frequency `50` of sampling rate `100` silently clamps and succeeds. -/
theorem analyzer_new_clamps_upper_cutoff_witness :
    Analyzer.new idTransform 16 4 .Rectangle 20 30000 100 =
      (Buckets.new 20 (min 30000 ((100 : ℚ) / 2)) 4).map fun bk =>
        { fft := idTransform, fftLen := 16, fft_bin_size := (100 : ℚ) / (16 : ℚ),
          window := .Rectangle, buckets := bk } :=
  analyzer_new_clamps_upper_cutoff idTransform 16 4 .Rectangle 20 30000 100
    (by norm_num)

/-- C9: `calculate_spectrum` is a pure function of the analyzer configuration
and the input samples: two calls with identical inputs yield identical
output. -/
theorem calculate_spectrum_deterministic (a : Analyzer) (s₁ s₂ : List ℚ)
    (h : s₁ = s₂) : a.calculate_spectrum s₁ = a.calculate_spectrum s₂ := by
  rw [h]

/-- Witness for C9: determinism instantiated at a concrete analyzer and
concrete samples. -/
theorem calculate_spectrum_deterministic_witness :
    demoAnalyzer.calculate_spectrum [1, 2] = demoAnalyzer.calculate_spectrum [1, 2] :=
  calculate_spectrum_deterministic demoAnalyzer [1, 2] [1, 2] rfl

/-! ## Lemmas about the bucketization accumulator -/

theorem updateAssign_length (l : List (ℚ × Nat)) (idx : Nat) (v : ℚ) :
    (updateAssign l idx v).length = l.length := by
  induction l generalizing idx with
  | nil => rfl
  | cons x xs ih =>
    cases idx with
    | zero => rfl
    | succ n => simp [updateAssign, ih]

theorem assignStep_length (a : Analyzer) (sp : List ℚ) (acc : List (ℚ × Nat))
    (i : Nat) : (assignStep a sp acc i).length = acc.length := by
  unfold assignStep
  cases a.buckets.locate (a.fft_bin_size * (i : ℚ)) with
  | none => rfl
  | some bi => simp [updateAssign_length]

theorem foldl_assignStep_length (a : Analyzer) (sp : List ℚ) (idxs : List Nat)
    (acc : List (ℚ × Nat)) :
    (idxs.foldl (assignStep a sp) acc).length = acc.length := by
  induction idxs generalizing acc with
  | nil => rfl
  | cons i rest ih => simp [List.foldl_cons, ih, assignStep_length]

theorem bucketize_spectrum_length (a : Analyzer) (spectrum : List ℚ) :
    (a.bucketize_spectrum spectrum).length = a.buckets.len := by
  unfold Analyzer.bucketize_spectrum
  simp [foldl_assignStep_length]

/-- C10: every spectrum index the bucketization loop reads lies strictly below
the spectrum length — the iterated range `1..=len/2` can never index out of
bounds, for a spectrum of any length — and the output length always equals the
bucket count, so the function's final assertion always holds. -/
theorem bucketize_spectrum_safety (a : Analyzer) (spectrum : List ℚ) :
    (∀ i ∈ validFFTIndices spectrum.length, i < spectrum.length) ∧
    (a.bucketize_spectrum spectrum).length = a.buckets.len := by
  constructor
  · intro i hi
    unfold validFFTIndices at hi
    rw [List.mem_range'_1] at hi
    omega
  · exact bucketize_spectrum_length a spectrum

/-- Witness for C10: the bound and the length assertion at a concrete analyzer
and a concrete four-entry spectrum, whose valid index range is `[1, 2]`. -/
theorem bucketize_spectrum_safety_witness :
    (2 < 4) ∧
    (demoAnalyzer.bucketize_spectrum [1, 2, 3, 4]).length = demoAnalyzer.buckets.len :=
  ⟨(bucketize_spectrum_safety demoAnalyzer [1, 2, 3, 4]).1 2 (by decide),
   (bucketize_spectrum_safety demoAnalyzer [1, 2, 3, 4]).2⟩

/-- C8: on samples that are all zero (and long enough), `calculate_spectrum`
returns a spectrum of length `transform_length` that is all zero.  The
transform is the injected black-box forward DFT; the hypothesis `hfft` records
the DFT property it supplies, that the transform of the zero sequence is the
zero sequence. -/
theorem calculate_spectrum_all_zero (a : Analyzer) (samples : List ℚ)
    (hz : ∀ x ∈ samples, x = 0)
    (hlen : a.fft_buffer_len ≤ samples.length)
    (hfft : a.fft (List.replicate a.fft_buffer_len (Cplx.ofRat 0)) =
      List.replicate a.fft_buffer_len (Cplx.ofRat 0)) :
    a.calculate_spectrum samples = .ok (List.replicate a.fft_buffer_len 0) := by
  unfold Analyzer.calculate_spectrum
  rw [if_neg (by simpa using hlen)]
  have hwlen : (a.window.generate a.fft_buffer_len).length = a.fft_buffer_len := by
    cases a.window
    simp [Window.generate]
  have hdrop : samples.drop (samples.length - a.fft_buffer_len) =
      List.replicate a.fft_buffer_len (0 : ℚ) := by
    rw [List.eq_replicate_iff]
    refine ⟨by simp; omega, fun x hx => hz x (List.mem_of_mem_drop hx)⟩
  have hinput :
      List.zipWith (fun s w => Cplx.ofRat (s * w))
        (samples.drop (samples.length - a.fft_buffer_len))
        (a.window.generate a.fft_buffer_len) =
      List.replicate a.fft_buffer_len (Cplx.ofRat 0) := by
    rw [hdrop]
    apply List.ext_getElem
    · simp only [List.length_zipWith, List.length_replicate, hwlen]
      omega
    · intro i h1 h2
      simp only [List.getElem_zipWith, List.getElem_replicate]
      simp [Cplx.ofRat]
  simp only [hinput, hfft]
  simp [Cplx.normSq, Cplx.ofRat, List.map_replicate]

/-- Witness for C8: the all-zero property at the concrete analyzer, whose
transform (the identity) maps the zero sequence to itself. -/
theorem calculate_spectrum_all_zero_witness :
    demoAnalyzer.calculate_spectrum [0, 0] = .ok (List.replicate 2 0) :=
  calculate_spectrum_all_zero demoAnalyzer [0, 0] (by decide) (by decide) rfl

/-- C1: with enough samples, `calculate_spectrum` succeeds and returns exactly
`transform_length` values; the sequence handed to the forward transform is the
last `transform_length` samples multiplied elementwise by the window
coefficients with imaginary part zero (`dftInput`), and the `i`-th returned
value is the raw squared magnitude of the `i`-th transform output — no
normalization.  `hfft` is the collaborator contract of the black-box forward
DFT: it preserves the sequence length. -/
theorem calculate_spectrum_spec (a : Analyzer) (samples : List ℚ)
    (hfft : ∀ l, (a.fft l).length = l.length)
    (hlen : a.fft_buffer_len ≤ samples.length) :
    a.calculate_spectrum samples =
      .ok ((a.fft (dftInput a samples)).map Cplx.normSq) ∧
    ((a.fft (dftInput a samples)).map Cplx.normSq).length = a.fft_buffer_len ∧
    ∀ i, i < a.fft_buffer_len →
      ((a.fft (dftInput a samples)).map Cplx.normSq).getD i 0 =
        Cplx.normSq ((a.fft (dftInput a samples)).getD i ⟨0, 0⟩) := by
  have hwlen : (a.window.generate a.fft_buffer_len).length = a.fft_buffer_len := by
    cases a.window
    simp [Window.generate]
  have hinput :
      List.zipWith (fun s w => Cplx.ofRat (s * w))
        (samples.drop (samples.length - a.fft_buffer_len))
        (a.window.generate a.fft_buffer_len) = dftInput a samples := by
    apply List.ext_getElem
    · simp only [List.length_zipWith, List.length_drop, hwlen, dftInput,
        List.length_ofFn]
      omega
    · intro i h1 h2
      have hib : i < a.fft_buffer_len := by
        simp only [List.length_zipWith, List.length_drop, hwlen] at h1
        omega
      have hs : samples.length - a.fft_buffer_len + i < samples.length := by
        omega
      have hw : i < (a.window.generate a.fft_buffer_len).length := by
        rw [hwlen]
        exact hib
      simp only [List.getElem_zipWith, dftInput, List.getElem_ofFn,
        List.getElem_drop]
      rw [List.getD_eq_getElem samples 0 hs,
        List.getD_eq_getElem _ 0 hw]
  unfold Analyzer.calculate_spectrum
  rw [if_neg (by simpa using hlen)]
  have hflen : (a.fft (dftInput a samples)).length = a.fft_buffer_len := by
    rw [hfft]
    simp [dftInput]
  refine ⟨by simp only [hinput], by rw [List.length_map, hflen], ?_⟩
  intro i hi
  have hl : i < ((a.fft (dftInput a samples)).map Cplx.normSq).length := by
    rw [List.length_map, hflen]
    exact hi
  rw [List.getD_eq_getElem _ _ hl, List.getElem_map,
    List.getD_eq_getElem _ _ (by rw [hflen]; exact hi)]

/-- Witness for C1: the specification of `calculate_spectrum` instantiated at
the concrete analyzer (whose transform, the identity, is length-preserving)
and concrete samples. -/
theorem calculate_spectrum_spec_witness :
    demoAnalyzer.calculate_spectrum [1, 2, 3] =
      .ok ((demoAnalyzer.fft (dftInput demoAnalyzer [1, 2, 3])).map Cplx.normSq) :=
  (calculate_spectrum_spec demoAnalyzer [1, 2, 3] (fun _ => rfl) (by decide)).1


theorem updateAssign_getD_eq (l : List (ℚ × Nat)) (idx : Nat) (v : ℚ)
    (h : idx < l.length) :
    (updateAssign l idx v).getD idx (0, 0) =
      ((l.getD idx (0, 0)).1 + v, (l.getD idx (0, 0)).2 + 1) := by
  induction l generalizing idx with
  | nil => simp at h
  | cons x xs ih =>
    cases idx with
    | zero => simp [updateAssign]
    | succ n =>
      simp only [updateAssign, List.getD_cons_succ]
      exact ih n (by simpa using h)

theorem updateAssign_getD_ne (l : List (ℚ × Nat)) (idx b : Nat) (v : ℚ)
    (h : idx ≠ b) :
    (updateAssign l idx v).getD b (0, 0) = l.getD b (0, 0) := by
  induction l generalizing idx b with
  | nil => simp [updateAssign]
  | cons x xs ih =>
    cases idx with
    | zero =>
      cases b with
      | zero => exact absurd rfl h
      | succ m => simp [updateAssign]
    | succ n =>
      cases b with
      | zero => simp [updateAssign]
      | succ m =>
        simp only [updateAssign, List.getD_cons_succ]
        exact ih n m (by omega)

theorem assignStep_getD (a : Analyzer) (sp : List ℚ) (acc : List (ℚ × Nat))
    (i band : Nat) (hb : band < acc.length) :
    (assignStep a sp acc i).getD band (0, 0) =
      if binInBand a band i then
        ((acc.getD band (0, 0)).1 + sp.getD i 0, (acc.getD band (0, 0)).2 + 1)
      else acc.getD band (0, 0) := by
  unfold assignStep binInBand
  cases hloc : a.buckets.locate (a.fft_bin_size * (i : ℚ)) with
  | none => simp
  | some j =>
    by_cases hj : j = band
    · subst hj
      rw [if_pos (by simp)]
      exact updateAssign_getD_eq acc j (sp.getD i 0) hb
    · rw [if_neg (by simp [hj]), updateAssign_getD_ne acc j band (sp.getD i 0) hj]

theorem foldl_assignStep_getD (a : Analyzer) (sp : List ℚ) (idxs : List Nat)
    (acc : List (ℚ × Nat)) (band : Nat) (hb : band < acc.length) :
    (idxs.foldl (assignStep a sp) acc).getD band (0, 0) =
      ((acc.getD band (0, 0)).1 +
        ((idxs.filter (binInBand a band)).map fun i => sp.getD i 0).sum,
       (acc.getD band (0, 0)).2 + (idxs.filter (binInBand a band)).length) := by
  induction idxs generalizing acc with
  | nil => simp
  | cons i rest ih =>
    simp only [List.foldl_cons]
    have hb' : band < (assignStep a sp acc i).length := by
      rw [assignStep_length]
      exact hb
    rw [ih (assignStep a sp acc i) hb', assignStep_getD a sp acc i band hb]
    by_cases hbin : binInBand a band i
    · simp only [hbin, List.filter_cons, if_true, List.map_cons, List.sum_cons,
        List.length_cons, Prod.mk.injEq]
      refine ⟨by ring, by omega⟩
    · simp only [Bool.not_eq_true] at hbin
      simp only [hbin, List.filter_cons, if_false, Bool.false_eq_true]

/-- C2: `bucketize_spectrum` returns exactly `bucket_count` values, one per
band in ascending band order; band `band` holds the average (`sum / count`) of
the spectrum values at the indices `1..=len/2` whose frequency
`fft_bin_size * i` `locate`s to that band, and `0.0` when no index maps to
it. -/
theorem bucketize_spectrum_spec (a : Analyzer) (spectrum : List ℚ) :
    (a.bucketize_spectrum spectrum).length = a.buckets.len ∧
    ∀ band, band < a.buckets.len →
      (a.bucketize_spectrum spectrum).getD band 0 =
        if 0 < ((validFFTIndices spectrum.length).filter (binInBand a band)).length
        then (((validFFTIndices spectrum.length).filter (binInBand a band)).map
            fun i => spectrum.getD i 0).sum /
          ((((validFFTIndices spectrum.length).filter (binInBand a band)).length : ℚ))
        else 0 := by
  refine ⟨bucketize_spectrum_length a spectrum, ?_⟩
  intro band hband
  unfold Analyzer.bucketize_spectrum
  have hlen : ((validFFTIndices spectrum.length).foldl (assignStep a spectrum)
      (List.replicate a.buckets.len ((0 : ℚ), (0 : Nat)))).length = a.buckets.len := by
    rw [foldl_assignStep_length]
    simp
  have hband' : band < ((validFFTIndices spectrum.length).foldl (assignStep a spectrum)
      (List.replicate a.buckets.len ((0 : ℚ), (0 : Nat)))).length := by
    rw [hlen]
    exact hband
  have hbandrep : band < (List.replicate a.buckets.len ((0 : ℚ), (0 : Nat))).length := by
    simpa using hband
  rw [List.getD_eq_getElem _ _ (by rw [List.length_map, hlen]; exact hband),
    List.getElem_map,
    ← List.getD_eq_getElem _ (((0 : ℚ), (0 : Nat))) hband',
    foldl_assignStep_getD a spectrum (validFFTIndices spectrum.length)
      (List.replicate a.buckets.len ((0 : ℚ), (0 : Nat))) band hbandrep]
  have hrep : (List.replicate a.buckets.len ((0 : ℚ), (0 : Nat))).getD band
      ((0 : ℚ), (0 : Nat)) = ((0 : ℚ), (0 : Nat)) := by
    rw [List.getD_eq_getElem _ _ hbandrep]
    exact List.getElem_replicate _ _
  rw [hrep]
  simp only [zero_add]

/-- Witness for C2: the per-band characterisation of the bucketized output at
a concrete analyzer, spectrum and band index. -/
theorem bucketize_spectrum_spec_witness :
    (demoAnalyzer.bucketize_spectrum [1, 2, 3, 4]).getD 0 0 =
      if 0 < ((validFFTIndices 4).filter (binInBand demoAnalyzer 0)).length
      then (((validFFTIndices 4).filter (binInBand demoAnalyzer 0)).map
          fun i => [(1 : ℚ), 2, 3, 4].getD i 0).sum /
        ((((validFFTIndices 4).filter (binInBand demoAnalyzer 0)).length : ℚ))
      else 0 :=
  (bucketize_spectrum_spec demoAnalyzer [1, 2, 3, 4]).2 0 (by decide)

/-- Witness for C3: the failure characterisation applied at an empty sample
slice against the concrete analyzer of transform length 2. -/
theorem calculate_spectrum_notEnoughSamples_witness :
    demoAnalyzer.calculate_spectrum [] = .error .NotEnoughSamples :=
  (calculate_spectrum_notEnoughSamples demoAnalyzer []).1.mpr (by decide)

/-- Witness for C4: constructing with sampling rate `0` fails with
`InvalidSamplingRate`, even though the remaining arguments are valid. -/
theorem analyzer_new_invalidSamplingRate_witness :
    Analyzer.new idTransform 2 1 .Rectangle 0 1 0 = .error .InvalidSamplingRate :=
  (analyzer_new_invalidSamplingRate idTransform 2 1 .Rectangle 0 1 0).mpr
    (by norm_num)
